import Mathlib

/-
  Verification of the state/option substrate of the `diffeq` ODE library.

  Shallow embedding of `src/ode/types.rs` and `src/ode/options.rs`.
  All concrete state representations in the source carry `f64` components;
  components are modelled as rationals (ℚ), which is exact for every
  constant appearing in the spec's examples and for the additive/min/max
  folds involved.  A Rust `panic!` (or an out-of-bounds indexing panic) is
  modelled as `none` of an `Option`-valued result.
-/

namespace Diffeq

/-- `PNorm` enum, types.rs lines 11-16: `P(usize)`, `InfPos`, `InfNeg`. -/
inductive PNorm where
  | P (p : ℕ)
  | InfPos
  | InfNeg
deriving Repr, DecidableEq

/-- `impl Default for PNorm`, types.rs lines 18-22: `PNorm::P(2)`. -/
def PNorm.defaultValue : PNorm := .P 2

/-- The `OdeType` trait, types.rs lines 27-83, with `Item = ℚ` (all source
instances use `f64`).  `get`, `getMut` and `insert` return `Option` values:
`none` models the fatal panic of an out-of-bounds access.  `getMut` returns
the component the mutable borrow focuses on. -/
class OdeType (α : Type) where
  dof : α → ℕ
  get : α → ℕ → Option ℚ
  getMut : α → ℕ → Option ℚ
  insert : α → ℕ → ℚ → Option α

/-- Default trait method `ode_iter`, types.rs lines 47-53 together with the
iterator implementation at lines 90-102: it yields `get(0), …, get(dof-1)`
in index order.  Inside the loop every index is `< dof`, so for each source
instance `get` succeeds there; the `getD 0` fallback is never exercised. -/
def odeIter {α : Type} [OdeType α] (x : α) : List ℚ :=
  (List.range (OdeType.dof x)).map (fun i => (OdeType.get x i).getD 0)

/-- The truncating `usize → i32` cast applied to the exponent in
`item.abs().powi(p as i32)`, types.rs line 79: keep the low 32 bits of `p`
and reinterpret them as a two's-complement signed 32-bit integer (so e.g.
`2^32` casts to `0` and `2^31` casts to `-2^31`). -/
def castI32 (p : ℕ) : ℤ :=
  if p % 2 ^ 32 < 2 ^ 31 then ((p % 2 ^ 32 : ℕ) : ℤ)
  else ((p % 2 ^ 32 : ℕ) : ℤ) - 2 ^ 32

/-- `f64::powi`, modelled on ℚ as the integer power `x ^ e`.  This is
exact for every nonnegative exponent.  For a negative exponent `f64`
rounds the reciprocal (and sends a zero base to `+∞`), which ℚ cannot
express; the theorems below therefore only ever evaluate `powi` at
nonnegative cast results, where the model is exact. -/
def powi (x : ℚ) (e : ℤ) : ℚ := x ^ e

/-- Default trait method `pnorm`, types.rs lines 58-82: a fold over
`ode_iter`, matching on the norm kind in source order.  The `P(p)` branch
accumulates `norm + item.abs().powi(p as i32)`, exponent cast included. -/
def pnorm {α : Type} [OdeType α] (p : PNorm) (x : α) : ℚ :=
  match p with
  | .InfPos =>
      (odeIter x).foldl (fun norm item => if |item| > norm then |item| else norm) 0
  | .InfNeg =>
      (odeIter x).foldl (fun norm item => if |item| < norm then |item| else norm) 0
  | .P p =>
      (odeIter x).foldl (fun norm item => norm + powi |item| (castI32 p)) 0

/-- Default trait method `set_zero`, types.rs lines 32-36:
`insert(i, zero)` for every `i in 0..dof`, in order.  The `Option` monad
propagates a panic of `insert` (never reached for the source instances,
whose loop indices are all in range). -/
def setZero {α : Type} [OdeType α] (x : α) : Option α :=
  (List.range (OdeType.dof x)).foldlM (fun s i => OdeType.insert s i 0) x

/-- `impl OdeType for Vec<T>`, types.rs lines 129-154: `dof` is the length,
`get`/`insert` use `self[index]` which panics out of bounds, `insert`
assigns in place. -/
instance instOdeTypeVec : OdeType (List ℚ) where
  dof xs := xs.length
  get xs i := xs[i]?
  getMut xs i := xs[i]?
  insert xs i v := if i < xs.length then some (xs.set i v) else none

/-- `impl_ode_tuple!([(f64, f64) => 2;f64;0,1])`, types.rs lines 184-222 and
226: `dof = 2`, the accessors match on the index and panic otherwise. -/
instance instOdeTypePair : OdeType (ℚ × ℚ) where
  dof _ := 2
  get t i := if i = 0 then some t.1 else if i = 1 then some t.2 else none
  getMut t i := if i = 0 then some t.1 else if i = 1 then some t.2 else none
  insert t i v :=
    if i = 0 then some (v, t.2) else if i = 1 then some (t.1, v) else none

/-- `impl_ode_tuple!([(f64, f64, f64) => 3;f64;0,1,2])`, types.rs lines
184-222 and 228: `dof = 3`, accessors match on the index and panic
otherwise. -/
instance instOdeTypeTriple : OdeType (ℚ × ℚ × ℚ) where
  dof _ := 3
  get t i :=
    if i = 0 then some t.1
    else if i = 1 then some t.2.1
    else if i = 2 then some t.2.2 else none
  getMut t i :=
    if i = 0 then some t.1
    else if i = 1 then some t.2.1
    else if i = 2 then some t.2.2 else none
  insert t i v :=
    if i = 0 then some (v, t.2.1, t.2.2)
    else if i = 1 then some (t.1, v, t.2.2)
    else if i = 2 then some (t.1, t.2.1, v) else none

/-- `impl_ode_ty!(f64)`, types.rs lines 156-182 and 224: the bare scalar.
`dof = 1`; `get`, `get_mut` and `insert` ignore the index entirely (`*self`
resp. `*self = item`) — there is no bounds check and no panic branch. -/
instance instOdeTypeScalar : OdeType ℚ where
  dof _ := 1
  get x _ := some x
  getMut x _ := some x
  insert _ _ v := some v

/-! ## Option value model, options.rs -/

/-- `Points` enum, options.rs lines 22-30. -/
inductive Points where
  | All
  | Specified (idx : List ℕ)
deriving Repr, DecidableEq

/-- `impl Default for Points`, options.rs lines 32-36: `Points::All`. -/
def Points.defaultValue : Points := .All

/-- The `OdeOption` tagged union generated by the `options!` macro,
options.rs lines 204-224: one variant per tunable, with the payload type
written in the macro invocation (`f64` → ℚ, `usize` → ℕ). -/
inductive OdeOption where
  | Norm (v : ℚ)
  | Reltol (v : ℚ)
  | Abstol (v : ℚ)
  | Minstep (v : ℕ)
  | Maxstep (v : ℕ)
  | Initstep (v : ℕ)
  | OutputPoints (v : Points)
  | Retries (v : ℕ)
deriving Repr, DecidableEq

/-- `impl Default for Reltol`, options.rs lines 226-230: `Reltol(1e-5)`. -/
def reltolDefault : ℚ := 1 / 100000

/-- `impl Default for Abstol`, options.rs lines 232-236: `Abstol(1e-8)`. -/
def abstolDefault : ℚ := 1 / 100000000

/-- `impl Default for Retries`, options.rs lines 238-242: `Retries(0)`. -/
def retriesDefault : ℕ := 0

/-- The canonical option names, options.rs lines 204-224, and which of them
carry a built-in default (`Default` impls at options.rs lines 32-36 and
226-242).  `Norm`, `Minstep`, `Maxstep`, `Initstep` have no default. -/
def canonicalDefault : String → Option OdeOption
  | "Reltol" => some (.Reltol reltolDefault)
  | "Abstol" => some (.Abstol abstolDefault)
  | "Retries" => some (.Retries retriesDefault)
  | "Points" => some (.OutputPoints Points.defaultValue)
  | _ => none

/-- `OdeOptionMap = HashMap<&'static str, OdeOption>`, options.rs line 9,
modelled as an association list keyed by the canonical name. -/
def OdeOptionMap : Type := List (String × OdeOption)

/-- Lookup by canonical name in an `OdeOptionMap`. -/
def OdeOptionMap.find (m : OdeOptionMap) (name : String) : Option OdeOption :=
  (List.find? (fun e => e.1 = name) m).map (fun e => e.2)

/-- The `Demo` option set produced by
`impl_ode_ops!(@common Demo { dummy : Reltol })`, options.rs lines 154-202
and 244-249: the five common optional fields plus the solver-specific
`dummy : Reltol` field (payloads unwrapped to their carried values). -/
structure Demo where
  reltol : Option ℚ
  abstol : Option ℚ
  minstep : Option ℕ
  maxstep : Option ℕ
  initstep : Option ℕ
  dummy : ℚ
deriving Repr, DecidableEq

/-- Variant-kind test for `Reltol`: the payload iff the variant matches. -/
def extractReltol : OdeOption → Option ℚ
  | .Reltol v => some v
  | _ => none

/-- Variant-kind test for `Abstol`: the payload iff the variant matches. -/
def extractAbstol : OdeOption → Option ℚ
  | .Abstol v => some v
  | _ => none

/-- Variant-kind test for `Minstep`: the payload iff the variant matches. -/
def extractMinstep : OdeOption → Option ℕ
  | .Minstep v => some v
  | _ => none

/-- Variant-kind test for `Maxstep`: the payload iff the variant matches. -/
def extractMaxstep : OdeOption → Option ℕ
  | .Maxstep v => some v
  | _ => none

/-- Variant-kind test for `Initstep`: the payload iff the variant matches. -/
def extractInitstep : OdeOption → Option ℕ
  | .Initstep v => some v
  | _ => none

/-- Read one real-valued field out of the map: absent is legal (field stays
unset), present with the wrong variant kind is a typed configuration error
naming the field. -/
def realField (m : OdeOptionMap) (name : String)
    (extract : OdeOption → Option ℚ) : Except String (Option ℚ) :=
  match m.find name with
  | none => .ok none
  | some o =>
    match extract o with
    | some v => .ok (some v)
    | none => .error name

/-- Read one natural-valued field out of the map, with the same absent /
mismatch semantics as `realField`. -/
def natField (m : OdeOptionMap) (name : String)
    (extract : OdeOption → Option ℕ) : Except String (Option ℕ) :=
  match m.find name with
  | none => .ok none
  | some o =>
    match extract o with
    | some v => .ok (some v)
    | none => .error name

/-- Modelled from the spec: the `OptionMap → OptionSet` conversion is left
as an `unimplemented!()` placeholder in the source (`From<OdeOptionMap> for
Demo`, options.rs lines 175-192).  Per the spec's conversion contract, for
every recognized field name the entry is looked up; a present entry whose
variant kind differs from the variant expected for that name is a typed
configuration error; an absent entry leaves an optional field unset, and
the `dummy : Reltol` field (whose type declares a default) falls back to
`Reltol`'s default. -/
def demoFromMap (m : OdeOptionMap) : Except String Demo :=
  match realField m "Reltol" extractReltol with
  | .error e => .error e
  | .ok reltol =>
  match realField m "Abstol" extractAbstol with
  | .error e => .error e
  | .ok abstol =>
  match natField m "Minstep" extractMinstep with
  | .error e => .error e
  | .ok minstep =>
  match natField m "Maxstep" extractMaxstep with
  | .error e => .error e
  | .ok maxstep =>
  match natField m "Initstep" extractInitstep with
  | .error e => .error e
  | .ok initstep =>
    .ok ⟨reltol, abstol, minstep, maxstep, initstep,
         (reltol.getD reltolDefault)⟩

/-! ## Basic facts about the embedded operations -/

lemma dof_vec (xs : List ℚ) : OdeType.dof xs = xs.length := rfl

lemma get_vec (xs : List ℚ) (i : ℕ) : OdeType.get xs i = xs[i]? := rfl

lemma insert_vec (xs : List ℚ) (i : ℕ) (v : ℚ) :
    OdeType.insert xs i v = if i < xs.length then some (xs.set i v) else none :=
  rfl

/-- The dynamic vector's `ode_iter` yields exactly the underlying components
in order. -/
lemma odeIter_vec (xs : List ℚ) : odeIter xs = xs := by
  unfold odeIter
  rw [dof_vec]
  apply List.ext_getElem
  · simp
  · intro i h1 h2
    simp only [List.getElem_map, List.getElem_range, get_vec]
    rw [List.getElem?_eq_getElem h2, Option.getD_some]

lemma odeIter_pair (a b : ℚ) : odeIter (a, b) = [a, b] := rfl

lemma odeIter_triple (a b c : ℚ) : odeIter (a, b, c) = [a, b, c] := rfl

lemma odeIter_scalar (x : ℚ) : odeIter x = [x] := rfl

lemma pnorm_P_def {α : Type} [OdeType α] (p : ℕ) (x : α) :
    pnorm (.P p) x
      = (odeIter x).foldl (fun norm item => norm + powi |item| (castI32 p)) 0 :=
  rfl

/-- For exponents below `2^31` the `usize → i32` cast is value-preserving. -/
lemma castI32_of_lt {p : ℕ} (hp : p < 2 ^ 31) : castI32 p = (p : ℤ) := by
  unfold castI32
  rw [Nat.mod_eq_of_lt (lt_trans hp (by norm_num))]
  rw [if_pos hp]

/-- `2^32` truncates to `0` under the `usize → i32` cast. -/
lemma castI32_two_pow_32 : castI32 (2 ^ 32) = 0 := by
  unfold castI32
  rw [Nat.mod_self]
  norm_num

lemma powi_natCast (x : ℚ) (n : ℕ) : powi x (n : ℤ) = x ^ n :=
  zpow_natCast x n

/-- Below the cast threshold, the `P(p)` branch of `pnorm` is exactly the
claimed fold accumulating `acc + |c| ^ p`. -/
lemma pnorm_P_eq_fold {α : Type} [OdeType α] {p : ℕ} (hp : p < 2 ^ 31)
    (x : α) :
    pnorm (.P p) x = (odeIter x).foldl (fun acc c => acc + |c| ^ p) 0 := by
  rw [pnorm_P_def]
  congr 1
  funext a b
  rw [castI32_of_lt hp, powi_natCast]

lemma pnorm_infPos_def {α : Type} [OdeType α] (x : α) :
    pnorm .InfPos x
      = (odeIter x).foldl
          (fun norm item => if |item| > norm then |item| else norm) 0 := rfl

lemma pnorm_infNeg_def {α : Type} [OdeType α] (x : α) :
    pnorm .InfNeg x
      = (odeIter x).foldl
          (fun norm item => if |item| < norm then |item| else norm) 0 := rfl

/-- A fold accumulating `acc + f c` is the sum of the mapped list. -/
lemma foldl_add_map_sum (f : ℚ → ℚ) :
    ∀ (xs : List ℚ) (init : ℚ),
      xs.foldl (fun a c => a + f c) init = init + (xs.map f).sum := by
  intro xs
  induction xs with
  | nil => intro init; simp
  | cons x t ih =>
    intro init
    simp only [List.foldl_cons, List.map_cons, List.sum_cons]
    rw [ih, add_assoc]

/-- Below the cast threshold, the `P(p)` branch of `pnorm` is the sum of
the absolute values of the components raised to the `p`-th power — the
"sum of absolute powers" convention, with no final `1/p` root. -/
lemma pnorm_P_eq_sum {α : Type} [OdeType α] {p : ℕ} (hp : p < 2 ^ 31)
    (x : α) :
    pnorm (.P p) x = ((odeIter x).map (fun c => |c| ^ p)).sum := by
  rw [pnorm_P_eq_fold hp, foldl_add_map_sum, zero_add]

lemma ite_gt_eq_max (a b : ℚ) : (if b > a then b else a) = max a b := by
  rcases le_or_lt b a with h | h
  · rw [if_neg (not_lt.mpr h), max_eq_left h]
  · rw [if_pos h, max_eq_right h.le]

/-- The `InfPos` branch of `pnorm` is the max-fold, seeded at `0`, of the
components' absolute values. -/
lemma pnorm_infPos_eq {α : Type} [OdeType α] (x : α) :
    pnorm .InfPos x = ((odeIter x).map (fun c => |c|)).foldl max 0 := by
  rw [pnorm_infPos_def, List.foldl_map]
  congr 1
  funext a b
  exact ite_gt_eq_max a |b|

lemma le_foldl_max_init (l : List ℚ) : ∀ init, init ≤ l.foldl max init := by
  induction l with
  | nil => intro init; simp
  | cons x t ih =>
    intro init
    exact le_trans (le_max_left init x) (ih (max init x))

lemma le_foldl_max_of_mem {x : ℚ} {l : List ℚ} (h : x ∈ l) :
    ∀ init, x ≤ l.foldl max init := by
  induction l with
  | nil => cases h
  | cons y t ih =>
    intro init
    rcases List.mem_cons.mp h with rfl | hm
    · exact le_trans (le_max_right init x) (le_foldl_max_init t (max init x))
    · exact ih hm (max init y)

/-- The `InfNeg` branch of `pnorm` is degenerate: the min-fold is seeded at
`0` and every `|component|` is nonnegative, so the accumulator stays `0`
on every state. -/
lemma pnorm_infNeg_eq_zero {α : Type} [OdeType α] (x : α) :
    pnorm .InfNeg x = 0 := by
  rw [pnorm_infNeg_def]
  induction odeIter x with
  | nil => rfl
  | cons c t ih =>
    simp only [List.foldl_cons]
    rw [if_neg (not_lt.mpr (abs_nonneg c))]
    exact ih

/-- In the `Option` monad, the `set_zero` fold over the dynamic vector
never hits the panic branch of `insert` while the index list stays in
range, and agrees with the pure in-place-assignment fold. -/
lemma foldlM_insert_eq_foldl :
    ∀ (l : List ℕ) (xs : List ℚ), (∀ i ∈ l, i < xs.length) →
      List.foldlM (fun s i => OdeType.insert s i (0 : ℚ)) xs l
        = some (List.foldl (fun s i => s.set i 0) xs l) := by
  intro l
  induction l with
  | nil => intro xs _; rfl
  | cons j t ih =>
    intro xs h
    have hj : j < xs.length := h j (List.mem_cons_self j t)
    rw [List.foldlM_cons, insert_vec, if_pos hj]
    simp only [Option.bind_eq_bind, Option.some_bind, List.foldl_cons]
    exact ih (xs.set j 0) (by
      intro i hi
      rw [List.length_set]
      exact h i (List.mem_cons_of_mem j hi))

/-- Assigning `0` in place at positions `0, …, k-1` of a vector turns its
first `k` components into zeros and leaves the rest. -/
lemma foldl_set_zero_range :
    ∀ (k : ℕ) (xs : List ℚ), k ≤ xs.length →
      (List.range k).foldl (fun s i => s.set i 0) xs
        = List.replicate k (0 : ℚ) ++ xs.drop k := by
  intro k
  induction k with
  | zero => intro xs _; simp
  | succ k ih =>
    intro xs hk
    have hk' : k < xs.length := hk
    rw [List.range_succ, List.foldl_append, List.foldl_cons, List.foldl_nil]
    rw [ih xs (Nat.le_of_succ_le hk)]
    rw [List.set_append_right k (0 : ℚ) (by simp)]
    rw [List.drop_eq_getElem_cons hk']
    simp only [List.length_replicate, Nat.sub_self, List.set_cons_zero]
    rw [List.replicate_succ' k (0 : ℚ), List.append_assoc, List.singleton_append]

/-- `set_zero` on the dynamic vector succeeds and produces the all-zero
vector of the same length. -/
lemma setZero_vec (xs : List ℚ) :
    setZero xs = some (List.replicate xs.length (0 : ℚ)) := by
  unfold setZero
  rw [dof_vec]
  rw [foldlM_insert_eq_foldl (List.range xs.length) xs
    (fun i hi => List.mem_range.mp hi)]
  rw [foldl_set_zero_range xs.length xs (le_refl _)]
  simp

lemma setZero_pair (a b : ℚ) : setZero (a, b) = some ((0 : ℚ), (0 : ℚ)) := rfl

lemma setZero_triple (a b c : ℚ) :
    setZero (a, b, c) = some ((0 : ℚ), (0 : ℚ), (0 : ℚ)) := rfl

lemma setZero_scalar (x : ℚ) : setZero x = some (0 : ℚ) := rfl

lemma get_triple (t : ℚ × ℚ × ℚ) (i : ℕ) :
    OdeType.get t i
      = (if i = 0 then some t.1
         else if i = 1 then some t.2.1
         else if i = 2 then some t.2.2 else none) := rfl

lemma getMut_triple (t : ℚ × ℚ × ℚ) (i : ℕ) :
    OdeType.getMut t i
      = (if i = 0 then some t.1
         else if i = 1 then some t.2.1
         else if i = 2 then some t.2.2 else none) := rfl

lemma insert_triple (t : ℚ × ℚ × ℚ) (i : ℕ) (v : ℚ) :
    OdeType.insert t i v
      = (if i = 0 then some (v, t.2.1, t.2.2)
         else if i = 1 then some (t.1, v, t.2.2)
         else if i = 2 then some (t.1, t.2.1, v) else none) := rfl

/-- On a state all of whose iterated components are zero, the `P(p)` norm
with positive `p` below the cast threshold is zero. -/
lemma pnorm_P_zero_of_all_zero {α : Type} [OdeType α] {p : ℕ} (hp : 0 < p)
    (hp' : p < 2 ^ 31) (x : α) (h : ∀ c ∈ odeIter x, c = 0) :
    pnorm (.P p) x = 0 := by
  rw [pnorm_P_eq_sum hp']
  apply List.sum_eq_zero
  intro y hy
  rcases List.mem_map.mp hy with ⟨c, hc, rfl⟩
  rw [h c hc, abs_zero, zero_pow hp.ne']

/-! ## Claims -/

/-- Claim C1 as frozen quantifies over every positive integer exponent,
but the source casts the exponent with `p as i32`: at `p = 2^32` the cast
truncates to `0`, so on the 1-component state `[0.0]` the program computes
`|0|^0 = 1` and `pnorm(P(2^32))` returns `1` (the `dof`), while the
claimed fold accumulating `acc + |c|^(2^32)` yields `0^(2^32) = 0`. -/
theorem C1_pnorm_P_cast_counterexample :
    pnorm (.P (2 ^ 32)) ([0] : List ℚ)
      ≠ (odeIter ([0] : List ℚ)).foldl
          (fun acc c => acc + |c| ^ (2 ^ 32 : ℕ)) 0 := by
  have hL : pnorm (.P (2 ^ 32)) ([0] : List ℚ) = 1 := by
    rw [pnorm_P_def, castI32_two_pow_32, odeIter_vec]
    simp only [List.foldl_cons, List.foldl_nil, powi, zpow_zero]
    norm_num
  have hz : |(0 : ℚ)| ^ (2 ^ 32 : ℕ) = 0 := by
    rw [abs_zero]
    exact zero_pow (by norm_num)
  have hR : (odeIter ([0] : List ℚ)).foldl
      (fun acc c => acc + |c| ^ (2 ^ 32 : ℕ)) 0 = 0 := by
    rw [odeIter_vec]
    simp only [List.foldl_cons, List.foldl_nil, hz]
    norm_num
  rw [hL, hR]
  norm_num

/-- Claim C1 amended: for every state and every positive integer exponent
`p < 2^31` (exactly those whose `usize → i32` cast is value-preserving),
`pnorm(P(p))` is the fold starting at zero that accumulates
`accumulator + |component|^p` over the components in index order — the
"sum of absolute powers" convention, with no final `1/p` root; on the
2-component state `(3, 4)`, `pnorm(P(2))` yields `25`. -/
theorem C1_pnorm_P_sum_of_abs_powers :
    (∀ (α : Type) [OdeType α] (x : α) (p : ℕ), 0 < p → p < 2 ^ 31 →
        pnorm (.P p) x
            = (odeIter x).foldl (fun acc c => acc + |c| ^ p) 0
          ∧ pnorm (.P p) x = ((odeIter x).map (fun c => |c| ^ p)).sum)
      ∧ pnorm (.P 2) (((3 : ℚ), (4 : ℚ))) = 25 := by
  constructor
  · intro α _ x p _ hp'
    exact ⟨pnorm_P_eq_fold hp' x, pnorm_P_eq_sum hp' x⟩
  · rw [pnorm_P_eq_sum (by norm_num), odeIter_pair]
    norm_num

/-- Instantiation of C1 at the 2-component state `(3, 4)` with `p = 2`. -/
theorem C1_pnorm_P_sum_of_abs_powers_witness :
    (0 < 2 ∧ 2 < 2 ^ 31
        ∧ pnorm (.P 2) (((3 : ℚ), (4 : ℚ)))
            = (odeIter (((3 : ℚ), (4 : ℚ)))).foldl (fun acc c => acc + |c| ^ 2) 0
          ∧ pnorm (.P 2) (((3 : ℚ), (4 : ℚ)))
            = ((odeIter (((3 : ℚ), (4 : ℚ)))).map (fun c => |c| ^ 2)).sum)
      ∧ pnorm (.P 2) (((3 : ℚ), (4 : ℚ))) = 25 :=
  ⟨⟨by norm_num, by norm_num,
    (C1_pnorm_P_sum_of_abs_powers.1 (ℚ × ℚ) ((3 : ℚ), (4 : ℚ)) 2
        (by norm_num) (by norm_num)).1,
    (C1_pnorm_P_sum_of_abs_powers.1 (ℚ × ℚ) ((3 : ℚ), (4 : ℚ)) 2
        (by norm_num) (by norm_num)).2⟩,
   C1_pnorm_P_sum_of_abs_powers.2⟩

/-- Claim C2 concerns `pnorm(InfNeg)` on `(-3, 4, -1)`.  The source's
min-fold is seeded at `0`, and every `|component|` is nonnegative, so the
fold returns the degenerate `0` on this state (indeed on every state) —
not the `1` of the `+infinity`-seeded convention the claim describes. -/
theorem C2_pnorm_infNeg_degenerate_zero :
    pnorm .InfNeg (((-3 : ℚ), (4 : ℚ), (-1 : ℚ))) = 0
      ∧ ∀ (α : Type) [OdeType α] (x : α), pnorm .InfNeg x = 0 :=
  ⟨by decide, fun _ _ x => pnorm_infNeg_eq_zero x⟩

/-- Claim C3: `pnorm(InfPos)` is the max-fold, seeded at zero, of the
absolute values of the components, and bounds every component's absolute
value from above; on `(-3, 4, -1)` it yields `4`, and on a state with
`dof = 0` it yields `0`, the aggregation's identity. -/
theorem C3_pnorm_infPos_max_abs :
    (∀ (α : Type) [OdeType α] (x : α),
        pnorm .InfPos x = ((odeIter x).map (fun c => |c|)).foldl max 0
          ∧ ∀ c ∈ odeIter x, |c| ≤ pnorm .InfPos x)
      ∧ pnorm .InfPos (((-3 : ℚ), (4 : ℚ), (-1 : ℚ))) = 4
      ∧ pnorm .InfPos (([] : List ℚ)) = 0 := by
  refine ⟨fun α _ x => ⟨pnorm_infPos_eq x, ?_⟩, by decide, rfl⟩
  intro c hc
  rw [pnorm_infPos_eq]
  exact le_foldl_max_of_mem (List.mem_map_of_mem _ hc) 0

/-- Instantiation of C3 on the 3-component state `(-3, 4, -1)`. -/
theorem C3_pnorm_infPos_max_abs_witness :
    |(-3 : ℚ)| ≤ pnorm .InfPos (((-3 : ℚ), (4 : ℚ), (-1 : ℚ))) :=
  (C3_pnorm_infPos_max_abs.1 (ℚ × ℚ × ℚ) ((-3 : ℚ), (4 : ℚ), (-1 : ℚ))).2
    (-3) (by decide)

/-- Claim C4 as frozen quantifies over every positive integer exponent,
but the source casts the exponent with `p as i32`: zeroing the one-element
vector `[7]` yields `[0]`, and at `p = 2^32` the cast truncates to `0`, so
the zeroed component contributes `|0|^0 = 1` and `pnorm(P(2^32))` returns
`1`, not the claimed `0`. -/
theorem C4_setZero_cast_counterexample :
    setZero ([7] : List ℚ) = some ([0] : List ℚ)
      ∧ pnorm (.P (2 ^ 32)) ([0] : List ℚ) ≠ 0 := by
  constructor
  · rw [setZero_vec]
    rfl
  · have h1 : pnorm (.P (2 ^ 32)) ([0] : List ℚ) = 1 := by
      rw [pnorm_P_def, castI32_two_pow_32, odeIter_vec]
      simp only [List.foldl_cons, List.foldl_nil, powi, zpow_zero]
      norm_num
    rw [h1]
    norm_num

/-- Claim C4 amended: on every modelled representation (dynamic vector,
2- and 3-tuples, bare scalar), `set_zero()` succeeds and the subsequent
`pnorm(P(p))` with positive integer `p < 2^31` (exactly those whose
`usize → i32` cast is value-preserving) yields `0`. -/
theorem C4_setZero_then_pnorm_P_zero :
    ∀ (p : ℕ), 0 < p → p < 2 ^ 31 →
      (∀ xs : List ℚ, ∃ ys, setZero xs = some ys ∧ pnorm (.P p) ys = 0)
        ∧ (∀ t : ℚ × ℚ, ∃ s, setZero t = some s ∧ pnorm (.P p) s = 0)
        ∧ (∀ t : ℚ × ℚ × ℚ, ∃ s, setZero t = some s ∧ pnorm (.P p) s = 0)
        ∧ (∀ v : ℚ, ∃ w, setZero v = some w ∧ pnorm (.P p) w = 0) := by
  intro p hp hp'
  refine ⟨fun xs => ⟨_, setZero_vec xs, ?_⟩,
          fun t => ⟨_, setZero_pair t.1 t.2, ?_⟩,
          fun t => ⟨_, setZero_triple t.1 t.2.1 t.2.2, ?_⟩,
          fun v => ⟨_, setZero_scalar v, ?_⟩⟩
  · apply pnorm_P_zero_of_all_zero hp hp'
    rw [odeIter_vec]
    intro c hc
    exact List.eq_of_mem_replicate hc
  · apply pnorm_P_zero_of_all_zero hp hp'
    rw [odeIter_pair]
    intro c hc
    simpa using hc
  · apply pnorm_P_zero_of_all_zero hp hp'
    rw [odeIter_triple]
    intro c hc
    simpa using hc
  · apply pnorm_P_zero_of_all_zero hp hp'
    rw [odeIter_scalar]
    intro c hc
    simpa using hc

/-- Instantiation of C4 with `p = 2` on the vector `[7, -5]`. -/
theorem C4_setZero_then_pnorm_P_zero_witness :
    0 < 2 ∧ 2 < 2 ^ 31
      ∧ ∃ ys, setZero ([7, -5] : List ℚ) = some ys ∧ pnorm (.P 2) ys = 0 :=
  ⟨by norm_num, by norm_num,
   (C4_setZero_then_pnorm_P_zero 2 (by norm_num) (by norm_num)).1 [7, -5]⟩

/-- Claim C5: on the fixed-size 3-tuple state, `get`, `get_mut` and
`insert` at any index `≥ dof = 3` hit the `panic!` branch of the match —
modelled as `none` — and never return a component or wrap the index. -/
theorem C5_tuple_out_of_range_fatal :
    ∀ (t : ℚ × ℚ × ℚ) (i : ℕ), 3 ≤ i →
      OdeType.get t i = none
        ∧ OdeType.getMut t i = none
        ∧ ∀ v, OdeType.insert t i v = none := by
  intro t i hi
  have h0 : ¬(i = 0) := by omega
  have h1 : ¬(i = 1) := by omega
  have h2 : ¬(i = 2) := by omega
  refine ⟨?_, ?_, fun v => ?_⟩
  · rw [get_triple, if_neg h0, if_neg h1, if_neg h2]
  · rw [getMut_triple, if_neg h0, if_neg h1, if_neg h2]
  · rw [insert_triple, if_neg h0, if_neg h1, if_neg h2]

/-- Instantiation of C5 on the 3-tuple `(1, 2, 3)` at index `5`. -/
theorem C5_tuple_out_of_range_fatal_witness :
    3 ≤ 5
      ∧ (OdeType.get (((1 : ℚ), (2 : ℚ), (3 : ℚ))) 5 = none
          ∧ OdeType.getMut (((1 : ℚ), (2 : ℚ), (3 : ℚ))) 5 = none
          ∧ ∀ v, OdeType.insert (((1 : ℚ), (2 : ℚ), (3 : ℚ))) 5 v = none) :=
  ⟨by norm_num,
   C5_tuple_out_of_range_fatal ((1 : ℚ), (2 : ℚ), (3 : ℚ)) 5 (by norm_num)⟩

/-- Claim C6 asserts the bare scalar's `get`/`get_mut`/`insert` validate
that the index is `0` and fatally abort for every index `≥ 1`.  At index
`1` on the scalar `3` all three operations succeed (the source ignores the
index entirely), refuting the claim. -/
theorem C6_scalar_index_validation_counterexample :
    OdeType.get (3 : ℚ) 1 = some 3
      ∧ OdeType.getMut (3 : ℚ) 1 = some 3
      ∧ OdeType.insert (3 : ℚ) 1 (7 : ℚ) = some 7 :=
  ⟨rfl, rfl, rfl⟩

/-- Claim C6 amended: the bare scalar's `get`, `get_mut` and `insert`
ignore the supplied index entirely — there is no validation, the operation
succeeds at every index and acts on the single component. -/
theorem C6_scalar_ignores_index :
    ∀ (x : ℚ) (i : ℕ),
      OdeType.get x i = some x
        ∧ OdeType.getMut x i = some x
        ∧ ∀ v, OdeType.insert x i v = some v :=
  fun _ _ => ⟨rfl, rfl, fun _ => rfl⟩

/-- Claim C7 concerns `pnorm(P(0))`: the source performs no validation of
the exponent and returns a computed numeric result — every component
contributes `|c|^0 = 1`, so the result is `dof` — rather than a typed
error; on the state `(3, 4)` the call returns `2`. -/
theorem C7_pnorm_P_zero_computes_dof :
    (∀ xs : List ℚ, pnorm (.P 0) xs = (xs.length : ℚ))
      ∧ pnorm (.P 0) (((3 : ℚ), (4 : ℚ))) = 2 := by
  constructor
  · intro xs
    rw [pnorm_P_eq_sum (by norm_num), odeIter_vec]
    induction xs with
    | nil => simp
    | cons c t ih =>
      simp only [List.map_cons, List.sum_cons, List.length_cons, pow_zero] at ih ⊢
      rw [ih]
      push_cast
      ring
  · rw [pnorm_P_eq_sum (by norm_num), odeIter_pair]
    norm_num

/-- Claim C8: the built-in option defaults are `Reltol = 1e-5`,
`Abstol = 1e-8`, `Retries = 0`, and output points `All`, both as the raw
default values and through the canonical-name default table. -/
theorem C8_option_defaults :
    reltolDefault = (1e-5 : ℚ)
      ∧ abstolDefault = (1e-8 : ℚ)
      ∧ retriesDefault = 0
      ∧ Points.defaultValue = Points.All
      ∧ canonicalDefault "Reltol" = some (.Reltol (1e-5 : ℚ))
      ∧ canonicalDefault "Abstol" = some (.Abstol (1e-8 : ℚ))
      ∧ canonicalDefault "Retries" = some (.Retries 0)
      ∧ canonicalDefault "Points" = some (.OutputPoints .All) := by
  have h5 : (1e-5 : ℚ) = reltolDefault := by
    rw [reltolDefault]
    norm_num
  have h8 : (1e-8 : ℚ) = abstolDefault := by
    rw [abstolDefault]
    norm_num
  rw [h5, h8]
  exact ⟨rfl, rfl, rfl, rfl, rfl, rfl, rfl, rfl⟩

/-- Claim C9 (conversion contract; the source stubs `From<OdeOptionMap>`
as `unimplemented!()`, so the conversion is modelled from the spec):
converting a map holding a `Reltol`-variant value under the canonical name
of `Abstol` fails with a typed configuration error naming the field; any
map whose `"Abstol"` entry carries the `Reltol` variant fails; and the
conversion is total — it always returns either a result or a typed error,
never a panic. -/
theorem C9_map_to_set_variant_mismatch_error :
    demoFromMap [("Abstol", OdeOption.Reltol reltolDefault)]
        = .error "Abstol"
      ∧ (∀ (m : OdeOptionMap) (v : ℚ),
          m.find "Abstol" = some (.Reltol v) →
            ∃ e, demoFromMap m = Except.error e)
      ∧ (∀ m : OdeOptionMap,
          (∃ d, demoFromMap m = .ok d) ∨ ∃ e, demoFromMap m = .error e) := by
  refine ⟨rfl, ?_, ?_⟩
  · intro m v h
    have hA : realField m "Abstol" extractAbstol = .error "Abstol" := by
      unfold realField
      rw [h]
      rfl
    unfold demoFromMap
    cases hR : realField m "Reltol" extractReltol with
    | error e => exact ⟨e, rfl⟩
    | ok r => exact ⟨"Abstol", by rw [hA]⟩
  · intro m
    cases h : demoFromMap m with
    | error e => exact Or.inr ⟨e, rfl⟩
    | ok d => exact Or.inl ⟨d, rfl⟩

/-- Instantiation of C9 on the deliberately mismatched one-entry map. -/
theorem C9_map_to_set_variant_mismatch_error_witness :
    ∃ e, demoFromMap [("Abstol", OdeOption.Reltol reltolDefault)]
        = Except.error e :=
  C9_map_to_set_variant_mismatch_error.2.1
    [("Abstol", OdeOption.Reltol reltolDefault)] reltolDefault rfl

/-- Claim C10: `insert` at a valid index and `set_zero` preserve `dof` on
the dynamic vector (insert assigns in place: the element at the given
position becomes the value, every other position is untouched, the length
never grows), and `dof` is the arity constant on tuples and `1` on the
scalar, whatever `insert` does to them. -/
theorem C10_insert_setZero_preserve_dof :
    (∀ (xs : List ℚ) (i : ℕ) (v : ℚ), i < OdeType.dof xs →
        ∃ ys, OdeType.insert xs i v = some ys
          ∧ OdeType.dof ys = OdeType.dof xs
          ∧ ys[i]? = some v
          ∧ ∀ j, j ≠ i → ys[j]? = xs[j]?)
      ∧ (∀ xs : List ℚ,
          ∃ ys, setZero xs = some ys ∧ OdeType.dof ys = OdeType.dof xs)
      ∧ (∀ t : ℚ × ℚ, OdeType.dof t = 2)
      ∧ (∀ t : ℚ × ℚ × ℚ, OdeType.dof t = 3)
      ∧ (∀ (t : ℚ × ℚ × ℚ) (i : ℕ) (v : ℚ) (s : ℚ × ℚ × ℚ),
          OdeType.insert t i v = some s → OdeType.dof s = OdeType.dof t)
      ∧ (∀ x : ℚ, OdeType.dof x = 1)
      ∧ (∀ (x : ℚ) (i : ℕ) (v w : ℚ),
          OdeType.insert x i v = some w → OdeType.dof w = OdeType.dof x) := by
  refine ⟨?_, ?_, fun _ => rfl, fun _ => rfl, fun _ _ _ _ _ => rfl,
          fun _ => rfl, fun _ _ _ _ _ => rfl⟩
  · intro xs i v hi
    rw [dof_vec] at hi
    refine ⟨xs.set i v, by rw [insert_vec, if_pos hi], ?_, ?_, ?_⟩
    · rw [dof_vec, dof_vec, List.length_set]
    · rw [List.getElem?_set, if_pos rfl, if_pos hi]
    · intro j hj
      exact List.getElem?_set_ne (fun h => hj h.symm)
  · intro xs
    refine ⟨_, setZero_vec xs, ?_⟩
    rw [dof_vec, dof_vec, List.length_replicate]

/-- Instantiation of C10 on the vector `[1, 2, 3]` at index `1`. -/
theorem C10_insert_setZero_preserve_dof_witness :
    1 < OdeType.dof ([1, 2, 3] : List ℚ)
      ∧ ∃ ys, OdeType.insert ([1, 2, 3] : List ℚ) 1 (9 : ℚ) = some ys
          ∧ OdeType.dof ys = OdeType.dof ([1, 2, 3] : List ℚ)
          ∧ ys[1]? = some 9
          ∧ ∀ j, j ≠ 1 → ys[j]? = ([1, 2, 3] : List ℚ)[j]? :=
  ⟨by decide, C10_insert_setZero_preserve_dof.1 [1, 2, 3] 1 9 (by decide)⟩

end Diffeq
